/-
Verification of the aratap.az scraper engine (src/scraper.py) against its
natural-language specification.

The engine is embedded shallowly:
* `fetchFrom` / `fetch_page` embed `AratapScraper.fetch_page` (scraper.py
  lines 162-203).  The network is abstracted as a function
  `outcomes : Nat → FetchOutcome` giving the outcome of each attempt; the
  embedding records the returned content, the number of attempts made, the
  backoff sleeps performed and the URLs appended to `self.failed_urls`.
  The no-shutdown run is modelled (`shutdown_requested` stays false).
* `dictLookup` / `dictMerge` embed Python dict lookup and the dict merge
  `{**listing, **details}` from `fetch_listing_details` (line 427).
* `fetch_listing_details` and `detailStep` / `detailLoop` embed the detail
  enrichment step (lines 413-436) and the enrichment loop of
  `scrape_all_pages` (lines 531-555); `CrawlState` holds the mutable run
  state (`all_listings`, `failed_urls`, `processed_urls`).  The external
  detail extractor `parse_detail_page` is a parameter `pd`, per the spec it
  is an out-of-scope collaborator.
* `consumePages` embeds the index-page consumption loop of
  `scrape_all_pages` (lines 505-523).
* `detect_last_page` embeds lines 438-474; the fetched page-1 soup is
  abstracted to `Option (Option (List PageLink))` (fetch failed / no
  pagination markup / pagination links).  `searchPage` embeds the regex
  search for `/page/(\d+)/` and `digitsOnly` embeds `str.isdigit`.
* `orderColumns` embeds the column ordering of `save_to_csv`
  (lines 584-604), parametrised by an enumeration of the Python set
  `fieldnames`.
-/
import Mathlib

namespace Aratap

/-- One HTTP attempt's outcome, as classified by `fetch_page`:
HTTP 200 with body, non-200 status, `asyncio.TimeoutError`, or any other
exception (transport error). -/
inductive FetchOutcome where
  | success (content : String)
  | badStatus (code : Nat)
  | timeout
  | transportError
deriving DecidableEq, Repr

/-- Attempts that do not return content (non-200, timeout, transport). -/
def FetchOutcome.isFail : FetchOutcome → Bool
  | .success _ => false
  | _ => true

/-- The failure kinds on which `fetch_page` itself appends the URL to
`self.failed_urls` after exhausting retries: timeout and transport error
(the non-200 branch, lines 184-189, returns `None` without appending). -/
def FetchOutcome.isNetFail : FetchOutcome → Bool
  | .timeout => true
  | .transportError => true
  | _ => false

/-- Observable result of one `fetch_page` call tree: the returned value,
how many HTTP attempts were made, the list of backoff sleeps (in order),
and the URLs appended to `self.failed_urls`. -/
structure FetchResult where
  result : Option String
  attempts : Nat
  sleeps : List Nat
  failedAppends : List String
deriving DecidableEq, Repr

/-- `fetch_page` from retry counter `rc` with `left = max_retries - rc`
retries remaining.  Mirrors scraper.py lines 173-203: on a failing attempt
with `retry_count < self.max_retries` it sleeps `2 ** retry_count` and
recurses with `retry_count + 1`; on final exhaustion the timeout and
transport branches append the URL to `failed_urls`, the non-200 branch
does not. -/
def fetchFrom (url : String) (outcomes : Nat → FetchOutcome) :
    Nat → Nat → FetchResult
  | rc, 0 =>
    match outcomes rc with
    | .success c => ⟨some c, 1, [], []⟩
    | .badStatus _ => ⟨none, 1, [], []⟩
    | .timeout => ⟨none, 1, [], [url]⟩
    | .transportError => ⟨none, 1, [], [url]⟩
  | rc, left + 1 =>
    match outcomes rc with
    | .success c => ⟨some c, 1, [], []⟩
    | _ =>
      let r := fetchFrom url outcomes (rc + 1) left
      ⟨r.result, r.attempts + 1, 2 ^ rc :: r.sleeps, r.failedAppends⟩

/-- `fetch_page(session, url)` with `self.max_retries = maxRetries`,
starting at `retry_count = 0`. -/
def fetch_page (url : String) (maxRetries : Nat)
    (outcomes : Nat → FetchOutcome) : FetchResult :=
  fetchFrom url outcomes 0 maxRetries

/-- What the final, exhausted attempt appends to `failed_urls`: the URL on
a timeout or transport error, nothing on a non-200 status. -/
def finalAppends (o : FetchOutcome) (url : String) : List String :=
  if o.isNetFail then [url] else []

/-- If every attempt from `rc` through `rc + left` fails, the call tree
makes `left + 1` attempts, sleeps `2 ^ rc, …, 2 ^ (rc + left - 1)`, and
appends the URL to `failed_urls` iff the last attempt was a timeout or
transport error. -/
theorem fetchFrom_all_fail (url : String) (outcomes : Nat → FetchOutcome) :
    ∀ left rc, (∀ i, i ≤ left → (outcomes (rc + i)).isFail) →
    fetchFrom url outcomes rc left =
      ⟨none, left + 1, (List.range' rc left).map (fun i => 2 ^ i),
        finalAppends (outcomes (rc + left)) url⟩ := by
  intro left
  induction left with
  | zero =>
    intro rc h
    have h0 := h 0 (Nat.le_refl 0)
    simp only [Nat.add_zero] at h0 ⊢
    cases ho : outcomes rc with
    | success c => simp [ho, FetchOutcome.isFail] at h0
    | badStatus code => simp [fetchFrom, ho, finalAppends, FetchOutcome.isNetFail]
    | timeout => simp [fetchFrom, ho, finalAppends, FetchOutcome.isNetFail]
    | transportError => simp [fetchFrom, ho, finalAppends, FetchOutcome.isNetFail]
  | succ n ih =>
    intro rc h
    have h0 := h 0 (Nat.zero_le _)
    rw [Nat.add_zero] at h0
    have hrec := ih (rc + 1) (fun i hi => by
      have := h (i + 1) (Nat.succ_le_succ hi)
      rwa [Nat.add_comm i 1, ← Nat.add_assoc] at this)
    have harith : rc + (n + 1) = rc + 1 + n := by omega
    cases ho : outcomes rc with
    | success c => simp [ho, FetchOutcome.isFail] at h0
    | badStatus code =>
      simp only [fetchFrom, ho, hrec, List.range'_succ, List.map_cons, harith]
    | timeout =>
      simp only [fetchFrom, ho, hrec, List.range'_succ, List.map_cons, harith]
    | transportError =>
      simp only [fetchFrom, ho, hrec, List.range'_succ, List.map_cons, harith]

/-- A listing record: a Python dict from field name to value
(`data = {}` in `parse_listing_card` / `parse_detail_page`), represented
as an association list in insertion order. -/
abbrev Record := List (String × String)

/-- Python dict lookup `d[k]` / `d.get(k)`: the value stored at key `k`. -/
def dictLookup (d : Record) (k : String) : Option String :=
  (d.find? (fun p => p.1 == k)).map (fun p => p.2)

/-- Python dict merge `{**a, **b}` (scraper.py line 427): keys of `a` in
order with values overridden by `b` where present, then the keys of `b`
not in `a`. -/
def dictMerge (a b : Record) : Record :=
  a.map (fun p => ((p.1), (dictLookup b p.1).getD p.2))
  ++ b.filter (fun p => (dictLookup a p.1).isNone)

theorem dictLookup_cons (p : String × String) (d : Record) (k : String) :
    dictLookup (p :: d) k = if p.1 == k then some p.2 else dictLookup d k := by
  by_cases hp : p.1 == k <;> simp [dictLookup, List.find?_cons, hp]

theorem dictLookup_append (x y : Record) (k : String) :
    dictLookup (x ++ y) k =
      match dictLookup x k with
      | some v => some v
      | none => dictLookup y k := by
  induction x with
  | nil => simp [dictLookup]
  | cons p x ih =>
    rw [List.cons_append, dictLookup_cons, dictLookup_cons]
    by_cases hp : p.1 == k
    · simp [hp]
    · simp [hp, ih]

theorem dictLookup_mapOverride (a b : Record) (k : String) :
    dictLookup (a.map (fun p => ((p.1), (dictLookup b p.1).getD p.2))) k =
      (dictLookup a k).map (fun v => (dictLookup b k).getD v) := by
  induction a with
  | nil => simp [dictLookup]
  | cons p a ih =>
    simp only [List.map_cons, dictLookup_cons]
    by_cases hp : p.1 == k
    · have hk : p.1 = k := by simpa using hp
      subst hk
      simp [hp]
    · simp [hp, ih]

theorem dictLookup_filter_notin (a b : Record) (k : String)
    (h : dictLookup a k = none) :
    dictLookup (b.filter (fun p => (dictLookup a p.1).isNone)) k =
      dictLookup b k := by
  induction b with
  | nil => rfl
  | cons q b ih =>
    rw [List.filter_cons]
    by_cases hq : q.1 == k
    · have hk : q.1 = k := by simpa using hq
      subst hk
      simp [h, dictLookup_cons, hq]
    · cases hf : (dictLookup a q.1).isNone
      · simp only [hf, if_false, Bool.false_eq_true, ite_false]
        rw [ih, dictLookup_cons, if_neg (by simpa using hq)]
      · simp only [hf, ite_true]
        rw [dictLookup_cons, dictLookup_cons,
          if_neg (by simpa using hq), if_neg (by simpa using hq), ih]

/-- Lookup in the Python dict merge `{**a, **b}` when the key is in `b`:
the right dict wins on collision. -/
theorem dictLookup_merge_some (a b : Record) (k : String) (v : String)
    (h : dictLookup b k = some v) :
    dictLookup (dictMerge a b) k = some v := by
  rw [dictMerge, dictLookup_append, dictLookup_mapOverride]
  cases ha : dictLookup a k with
  | some w => simp [h]
  | none =>
    simp only [Option.map_none']
    rw [dictLookup_filter_notin a b k ha, h]

/-- Lookup in the Python dict merge `{**a, **b}` when the key is absent
from `b`: the left value is retained. -/
theorem dictLookup_merge_none (a b : Record) (k : String)
    (h : dictLookup b k = none) :
    dictLookup (dictMerge a b) k = dictLookup a k := by
  rw [dictMerge, dictLookup_append, dictLookup_mapOverride]
  cases ha : dictLookup a k with
  | some w => simp [h, ha]
  | none =>
    simp only [Option.map_none']
    rw [dictLookup_filter_notin a b k ha, h]

/-- The scraper's mutable run state (scraper.py lines 78-80): the
accumulation set `self.all_listings`, the failed-URL sequence
`self.failed_urls`, and the dedup ledger `self.processed_urls` (a Python
set, represented as a duplicate-free list). -/
structure CrawlState where
  all_listings : List Record
  failed_urls : List String
  processed_urls : List String
deriving DecidableEq, Repr

/-- Python `set.add`. -/
def setAdd (s : List String) (u : String) : List String :=
  if u ∈ s then s else u :: s

/-- One discovered summary together with the network behaviour of its
detail-page fetch (the outcome of each HTTP attempt `fetch_page` makes
for it). -/
structure EnrichItem where
  listing : Record
  outcomes : Nat → FetchOutcome

/-- `fetch_listing_details` (scraper.py lines 413-436) for the
no-shutdown run.  `pd html url` stands for the external extractor
`parse_detail_page(html, url)`.  Returns the record the caller will
append and the updated state:
* no `url` field, or an empty one (`if not url`): the listing is
  returned unchanged;
* fetch returned content (`if html:`): details are extracted and merged
  with `{**listing, **details}`, the URL is added to `processed_urls`;
* fetch returned `None` (or empty content): the URL is appended to
  `failed_urls` (in addition to any append `fetch_page` itself made on a
  timeout or transport error). -/
def fetch_listing_details (maxRetries : Nat) (pd : String → String → Record)
    (s : CrawlState) (listing : Record) (outcomes : Nat → FetchOutcome) :
    Record × CrawlState :=
  match dictLookup listing "url" with
  | none => (listing, s)
  | some u =>
    if u = "" then (listing, s)
    else
      let fr := fetch_page u maxRetries outcomes
      let s1 : CrawlState :=
        { s with failed_urls := s.failed_urls ++ fr.failedAppends }
      match fr.result with
      | some html =>
        if html = "" then
          (listing, { s1 with failed_urls := s1.failed_urls ++ [u] })
        else
          let details := pd html u
          (dictMerge listing details,
            { s1 with processed_urls := setAdd s1.processed_urls u })
      | none =>
        (listing, { s1 with failed_urls := s1.failed_urls ++ [u] })

/-- One iteration of the enrichment loop in `scrape_all_pages`
(scraper.py lines 531-541), for the no-shutdown run: skip the listing if
its URL is already in `processed_urls`, otherwise call
`fetch_listing_details` and append the returned record to
`all_listings`.  The second component records the URLs for which a
detail-page fetch was actually issued. -/
def detailStep (maxRetries : Nat) (pd : String → String → Record)
    (s : CrawlState) (it : EnrichItem) : CrawlState × List String :=
  match dictLookup it.listing "url" with
  | some u =>
    if s.processed_urls.contains u then (s, [])
    else
      let r := fetch_listing_details maxRetries pd s it.listing it.outcomes
      ({ r.2 with all_listings := r.2.all_listings ++ [r.1] },
       if u = "" then [] else [u])
  | none =>
    let r := fetch_listing_details maxRetries pd s it.listing it.outcomes
    ({ r.2 with all_listings := r.2.all_listings ++ [r.1] }, [])

/-- The whole enrichment loop over the discovered summaries, returning
the final state and the concatenated list of URLs for which a detail
fetch was issued. -/
def detailLoop (maxRetries : Nat) (pd : String → String → Record)
    (s : CrawlState) : List EnrichItem → CrawlState × List String
  | [] => (s, [])
  | it :: rest =>
    let r := detailStep maxRetries pd s it
    let r2 := detailLoop maxRetries pd r.1 rest
    (r2.1, r.2 ++ r2.2)

/-- The `url` fields present in a record set. -/
def urlsOf (rs : List Record) : List String :=
  rs.filterMap (fun r => dictLookup r "url")

/-- No two records of the accumulation set carry the same `url`. -/
def urlsUnique (rs : List Record) : Prop :=
  (urlsOf rs).Nodup

instance (rs : List Record) : Decidable (urlsUnique rs) :=
  List.nodupDecidable (urlsOf rs)

/-- ProcessedSet ⊆ urls of the accumulation set: every processed URL is
the `url` field of some accumulated record. -/
def processedInv (s : CrawlState) : Prop :=
  ∀ u ∈ s.processed_urls, ∃ r ∈ s.all_listings, dictLookup r "url" = some u

/-- What one index page contributed to the consumption loop of
`scrape_all_pages` (lines 505-523): the gathered fetch raised an
exception, the fetch returned `None`/empty (`if html:` false), or content
was parsed into a (possibly empty) list of summaries by
`parse_listing_cards`. -/
inductive PageResult where
  | exc
  | noHtml
  | parsed (listings : List Record)
deriving DecidableEq, Repr

/-- The consumption loop over the gathered `(page_num, html)` pairs
(scraper.py lines 505-523), for the no-shutdown run: exceptions and
`None` pages are skipped; a page with summaries extends the result; a
page parsed to zero summaries breaks out of the loop when its number
exceeds `start_page`. -/
def consumePages (startPage : Nat) : List (Nat × PageResult) → List Record
  | [] => []
  | (_, PageResult.exc) :: rest => consumePages startPage rest
  | (_, PageResult.noHtml) :: rest => consumePages startPage rest
  | (p, PageResult.parsed ls) :: rest =>
    if ls = [] then
      if startPage < p then [] else consumePages startPage rest
    else ls ++ consumePages startPage rest

/-- An entry at which the consumption loop breaks: a page beyond the
first whose content parsed to zero summaries. -/
def haltsAt (startPage : Nat) (e : Nat × PageResult) : Bool :=
  match e.2 with
  | PageResult.parsed ls => ls.isEmpty && decide (startPage < e.1)
  | _ => false

/-- Python `str.isdigit()` (over ASCII digits): non-empty and all
characters are digits. -/
def digitsOnly (s : String) : Bool :=
  !s.data.isEmpty && s.data.all Char.isDigit

/-- Python `int(...)` on a digit string. -/
def digitsToNat (cs : List Char) : Nat :=
  cs.foldl (fun n c => n * 10 + (c.toNat - 48)) 0

/-- Split a leading run of digits from the rest. -/
def takeDigits : List Char → List Char × List Char
  | [] => ([], [])
  | c :: cs =>
    if c.isDigit then
      let r := takeDigits cs
      (c :: r.1, r.2)
    else ([], c :: cs)

/-- Match the regex `/page/(\d+)/` at the start of the character list:
the literal `/page/`, then a maximal non-empty digit run, then `/`
(greedy `\d+` cannot backtrack successfully here since `/` is not a
digit).  Returns the numeric value of the captured group. -/
def matchPage (cs : List Char) : Option Nat :=
  match cs with
  | '/' :: 'p' :: 'a' :: 'g' :: 'e' :: '/' :: rest =>
    let r := takeDigits rest
    if r.1.isEmpty then none
    else
      match r.2 with
      | '/' :: _ => some (digitsToNat r.1)
      | _ => none
  | _ => none

/-- `re.search(r'/page/(\d+)/', href)`: the first position at which the
pattern matches. -/
def searchPage : List Char → Option Nat
  | [] => none
  | c :: cs =>
    match matchPage (c :: cs) with
    | some n => some n
    | none => searchPage cs

/-- One `<a>` element inside the pagination markup: its stripped text and
its `href` attribute. -/
structure PageLink where
  text : String
  href : String
deriving DecidableEq, Repr

/-- The `max_page` fold of `detect_last_page` (scraper.py lines 453-464):
starting from 1, take the maximum over each link's digit-only text and
each `/page/N/` reference found in its `href`. -/
def paginationMax (links : List PageLink) : Nat :=
  links.foldl (fun mp l =>
    let mp1 := if digitsOnly l.text then max mp (digitsToNat l.text.data) else mp
    match searchPage l.href.data with
    | some n => max mp1 n
    | none => mp1) 1

/-- `detect_last_page` (scraper.py lines 438-474).  The fetched page-1
soup is abstracted: `none` = the fetch failed (`html` falsy), `some none`
= content without pagination markup, `some (some links)` = pagination
markup containing `links`.  If the computed `max_page` exceeds 1 it is
returned; every other path falls through to the fallback 100. -/
def detect_last_page (pageOne : Option (Option (List PageLink))) : Nat :=
  match pageOne with
  | some (some links) =>
    if 1 < paginationMax links then paginationMax links else 100
  | _ => 100

/-- The numeric page values one link contributes to the pagination scan:
its digit-only text, and any `/page/N/` reference in its target. -/
def linkVals (l : PageLink) : List Nat :=
  (if digitsOnly l.text then [digitsToNat l.text.data] else []) ++
    (match searchPage l.href.data with
     | some n => [n]
     | none => [])

/-- All numeric page values found in the pagination markup. -/
def pageVals (links : List PageLink) : List Nat :=
  links.flatMap linkVals

/-- The column-ordering computation of `save_to_csv` (scraper.py lines
590-596): the fixed priority list of well-known fields. -/
def priority_fields : List String :=
  ["listing_id", "listing_number", "title", "price", "price_value",
   "price_currency", "city", "location", "property_type", "listing_type",
   "building_type", "area_sqm", "rooms", "room_count", "floor",
   "total_floors", "description", "owner_name", "phone", "url",
   "listing_date", "posted_date", "views", "image_count", "thumbnail",
   "all_images"]

/-- The column ordering of `save_to_csv` (scraper.py lines 584-604),
parametrised by an enumeration `fns` of the Python set `fieldnames`
(the union of all records' keys, in whatever order the set iterates):
priority fields that occur in the records first, in their fixed order,
then the remaining field names sorted lexicographically. -/
def orderColumns (fns : List String) : List String :=
  priority_fields.filter (fun f => fns.contains f) ++
    List.insertionSort (fun a b : String => a ≤ b)
      (fns.filter (fun f => !priority_fields.contains f))

theorem isFail_of_isNetFail (o : FetchOutcome) (h : o.isNetFail) :
    o.isFail := by
  cases o <;> simp [FetchOutcome.isNetFail, FetchOutcome.isFail] at h ⊢

/-- C2 (counterexample): a URL whose every attempt returns HTTP 404 is
attempted `maxRetries + 1` times, but `fetch_page` returns Failure
without recording it in `failed_urls` — the non-200 branch, unlike the
timeout and transport branches, never appends. -/
theorem fetch_status_exhaustion_not_recorded :
    (fetch_page "u" 3 (fun _ => FetchOutcome.badStatus 404)).attempts = 3 + 1 ∧
    (fetch_page "u" 3 (fun _ => FetchOutcome.badStatus 404)).result = none ∧
    "u" ∉ (fetch_page "u" 3 (fun _ => FetchOutcome.badStatus 404)).failedAppends := by
  refine ⟨rfl, rfl, ?_⟩
  decide

/-- C2 (amended): for a URL whose every fetch attempt fails, with retry
bound `mr` the fetcher makes exactly `mr + 1` attempts, sleeping
`2 ^ attempt` between attempts; the URL is recorded in `failed_urls` by
`fetch_page` itself only when the final attempt failed by timeout or
transport error — on final non-200 status it returns Failure without
recording. -/
theorem fetch_retry_schedule (url : String) (mr : Nat)
    (o : Nat → FetchOutcome) (h : ∀ i, i ≤ mr → (o i).isFail) :
    (fetch_page url mr o).result = none ∧
    (fetch_page url mr o).attempts = mr + 1 ∧
    (fetch_page url mr o).sleeps = (List.range mr).map (fun i => 2 ^ i) ∧
    (fetch_page url mr o).failedAppends = finalAppends (o mr) url := by
  have hf := fetchFrom_all_fail url o mr 0 (fun i hi => by
    simpa using h i hi)
  rw [Nat.zero_add] at hf
  rw [fetch_page, hf, List.range_eq_range']
  exact ⟨rfl, rfl, rfl, rfl⟩

/-- C2 (witness for the amended theorem) at a concrete run: three
timeouts with retry bound 2. -/
theorem fetch_retry_schedule_witness :
    (fetch_page "u" 2 (fun _ => FetchOutcome.timeout)).result = none ∧
    (fetch_page "u" 2 (fun _ => FetchOutcome.timeout)).attempts = 2 + 1 ∧
    (fetch_page "u" 2 (fun _ => FetchOutcome.timeout)).sleeps =
      (List.range 2).map (fun i => 2 ^ i) ∧
    (fetch_page "u" 2 (fun _ => FetchOutcome.timeout)).failedAppends =
      finalAppends ((fun _ => FetchOutcome.timeout) 2) "u" :=
  fetch_retry_schedule "u" 2 (fun _ => FetchOutcome.timeout)
    (fun _ _ => rfl)

theorem fetchFrom_sleeps_shape (url : String) (o : Nat → FetchOutcome) :
    ∀ left rc, ∃ m,
      (fetchFrom url o rc left).sleeps =
        (List.range' rc m).map (fun i => 2 ^ i) := by
  intro left
  induction left with
  | zero =>
    intro rc
    refine ⟨0, ?_⟩
    cases ho : o rc <;> simp [fetchFrom, ho]
  | succ n ih =>
    intro rc
    cases ho : o rc with
    | success c => exact ⟨0, by simp [fetchFrom, ho]⟩
    | badStatus code =>
      obtain ⟨m, hm⟩ := ih (rc + 1)
      exact ⟨m + 1, by simp [fetchFrom, ho, hm, List.range'_succ]⟩
    | timeout =>
      obtain ⟨m, hm⟩ := ih (rc + 1)
      exact ⟨m + 1, by simp [fetchFrom, ho, hm, List.range'_succ]⟩
    | transportError =>
      obtain ⟨m, hm⟩ := ih (rc + 1)
      exact ⟨m + 1, by simp [fetchFrom, ho, hm, List.range'_succ]⟩

theorem fetch_page_sleeps_sorted (url : String) (mr : Nat)
    (o : Nat → FetchOutcome) :
    (fetch_page url mr o).sleeps.Sorted (· ≤ ·) := by
  obtain ⟨m, hm⟩ := fetchFrom_sleeps_shape url o mr 0
  rw [fetch_page, hm]
  have hp : (List.range' 0 m).Pairwise (· < ·) := List.pairwise_lt_range' 0 m
  exact List.Pairwise.map _
    (fun a b hab => Nat.pow_le_pow_right (by norm_num) (Nat.le_of_lt hab)) hp

/-- C8: the backoff delays slept within one `fetch_page` call tree are
monotonically non-decreasing: for retry indices `j ≤ k`, the delay slept
before retry `j` is at most the delay slept before retry `k`. -/
theorem backoff_monotone (url : String) (mr : Nat) (o : Nat → FetchOutcome)
    (j k : Nat) (hjk : j ≤ k)
    (hj : j < (fetch_page url mr o).sleeps.length)
    (hk : k < (fetch_page url mr o).sleeps.length) :
    (fetch_page url mr o).sleeps.get ⟨j, hj⟩ ≤
      (fetch_page url mr o).sleeps.get ⟨k, hk⟩ :=
  (fetch_page_sleeps_sorted url mr o).rel_get_of_le hjk

/-- C8 (witness): with retry bound 2 and all attempts timing out, the
first backoff delay is at most the second. -/
theorem backoff_monotone_witness :
    (fetch_page "u" 2 (fun _ => FetchOutcome.timeout)).sleeps.get
        ⟨0, by decide⟩ ≤
      (fetch_page "u" 2 (fun _ => FetchOutcome.timeout)).sleeps.get
        ⟨1, by decide⟩ :=
  backoff_monotone "u" 2 (fun _ => FetchOutcome.timeout) 0 1
    (by decide) (by decide) (by decide)

/-- C10: when a detail-page fetch exhausts all retries with timeouts or
transport errors, the URL is appended to `failed_urls` twice in that one
enrichment step — once by `fetch_page` on the final failed attempt and
once more by `fetch_listing_details` when it sees the `None` result. -/
theorem detail_fetch_double_failed_append (mr : Nat)
    (pd : String → String → Record) (s : CrawlState) (listing : Record)
    (o : Nat → FetchOutcome) (u : String)
    (hu : dictLookup listing "url" = some u) (hne : u ≠ "")
    (hfail : ∀ i, i ≤ mr → (o i).isNetFail) :
    (fetch_listing_details mr pd s listing o).2.failed_urls =
      s.failed_urls ++ [u, u] := by
  have hfr := fetchFrom_all_fail u o mr 0 (fun i hi => by
    simpa using isFail_of_isNetFail _ (hfail i hi))
  rw [Nat.zero_add] at hfr
  have hnet : (o mr).isNetFail := hfail mr (Nat.le_refl mr)
  have happ : finalAppends (o mr) u = [u] := by
    rw [finalAppends, if_pos hnet]
  simp only [fetch_listing_details, hu, if_neg hne, fetch_page, hfr, happ,
    List.append_assoc]
  rfl

/-- C10 (witness): a concrete all-timeout enrichment step appends the
URL twice. -/
theorem detail_fetch_double_failed_append_witness :
    (fetch_listing_details 1 (fun _ _ => ([] : Record))
        (CrawlState.mk [] [] []) [("url", "a")]
        (fun _ => FetchOutcome.timeout)).2.failed_urls =
      [] ++ ["a", "a"] :=
  detail_fetch_double_failed_append 1 (fun _ _ => ([] : Record))
    (CrawlState.mk [] [] []) [("url", "a")] (fun _ => FetchOutcome.timeout)
    "a" rfl (by decide) (fun _ _ => rfl)

/-- C7: in the merged record `{**summary, **detail}` built by
`fetch_listing_details`, every key present in the detail result maps to
the detail value, and every key present only in the summary keeps the
summary value. -/
theorem merge_detail_overrides (summary detail : Record) (k : String) :
    (∀ v, dictLookup detail k = some v →
      dictLookup (dictMerge summary detail) k = some v) ∧
    (dictLookup detail k = none →
      dictLookup (dictMerge summary detail) k = dictLookup summary k) :=
  ⟨fun _ hv => dictLookup_merge_some summary detail k _ hv,
   fun h => dictLookup_merge_none summary detail k h⟩

/-- C7 (witness): on a concrete summary and detail record, the colliding
key `price` takes the detail value and the summary-only key `url` is
retained. -/
theorem merge_detail_overrides_witness :
    dictLookup (dictMerge [("url", "a"), ("price", "1")]
      [("price", "2"), ("detail_url", "a")]) "price" = some "2" ∧
    dictLookup (dictMerge [("url", "a"), ("price", "1")]
      [("price", "2"), ("detail_url", "a")]) "url" =
      dictLookup [("url", "a"), ("price", "1")] "url" :=
  ⟨(merge_detail_overrides [("url", "a"), ("price", "1")]
      [("price", "2"), ("detail_url", "a")] "price").1 "2" rfl,
   (merge_detail_overrides [("url", "a"), ("price", "1")]
      [("price", "2"), ("detail_url", "a")] "url").2 rfl⟩

theorem mem_setAdd (s : List String) (u v : String) :
    v ∈ setAdd s u ↔ v = u ∨ v ∈ s := by
  rw [setAdd]
  by_cases h : u ∈ s
  · rw [if_pos h]
    exact ⟨fun hv => Or.inr hv, fun hv => hv.elim (fun e => e ▸ h) id⟩
  · rw [if_neg h]
    exact List.mem_cons

/-- Case analysis on one `fetch_listing_details` call: either it leaves
`processed_urls` untouched and returns the listing unchanged (missing or
empty URL, or failed fetch), or the fetch succeeded, the URL was added to
`processed_urls`, and the merged record is returned. -/
theorem fetch_listing_details_cases (mr : Nat)
    (pd : String → String → Record) (s : CrawlState) (l : Record)
    (o : Nat → FetchOutcome) :
    ((fetch_listing_details mr pd s l o).1 = l ∧
     (fetch_listing_details mr pd s l o).2.processed_urls =
       s.processed_urls) ∨
    (∃ u html, dictLookup l "url" = some u ∧ u ≠ "" ∧ html ≠ "" ∧
      (fetch_page u mr o).result = some html ∧
      (fetch_listing_details mr pd s l o).1 = dictMerge l (pd html u) ∧
      (fetch_listing_details mr pd s l o).2.processed_urls =
        setAdd s.processed_urls u) := by
  cases hl : dictLookup l "url" with
  | none => left; simp [fetch_listing_details, hl]
  | some u =>
    by_cases hu : u = ""
    · left
      simp [fetch_listing_details, hl, hu]
    · cases hr : (fetch_page u mr o).result with
      | none =>
        left
        simp [fetch_listing_details, hl, hu, hr]
      | some html =>
        by_cases hh : html = ""
        · left
          simp [fetch_listing_details, hl, hu, hr, hh]
        · right
          refine ⟨u, html, rfl, hu, hh, hr, ?_, ?_⟩ <;>
            simp [fetch_listing_details, hl, hu, hr, hh]

theorem fetch_listing_details_all_listings (mr : Nat)
    (pd : String → String → Record) (s : CrawlState) (l : Record)
    (o : Nat → FetchOutcome) :
    (fetch_listing_details mr pd s l o).2.all_listings = s.all_listings := by
  cases hl : dictLookup l "url" with
  | none => simp [fetch_listing_details, hl]
  | some u =>
    by_cases hu : u = ""
    · simp [fetch_listing_details, hl, hu]
    · cases hr : (fetch_page u mr o).result with
      | none => simp [fetch_listing_details, hl, hu, hr]
      | some html =>
        by_cases hh : html = ""
        · simp [fetch_listing_details, hl, hu, hr, hh]
        · simp [fetch_listing_details, hl, hu, hr, hh]

theorem contains_iff_mem (l : List String) (u : String) :
    l.contains u = true ↔ u ∈ l :=
  List.elem_iff

/-- The success branch of `fetch_listing_details`: a non-empty URL whose
fetch returned non-empty content yields the merged record, adds the URL
to `processed_urls` and leaves `all_listings` untouched. -/
theorem fetch_listing_details_success (mr : Nat)
    (pd : String → String → Record) (s : CrawlState) (l : Record)
    (o : Nat → FetchOutcome) (u html : String)
    (hu : dictLookup l "url" = some u) (hne : u ≠ "")
    (hr : (fetch_page u mr o).result = some html) (hh : html ≠ "") :
    fetch_listing_details mr pd s l o =
      (dictMerge l (pd html u),
       CrawlState.mk s.all_listings
         (s.failed_urls ++ (fetch_page u mr o).failedAppends)
         (setAdd s.processed_urls u)) := by
  simp [fetch_listing_details, hu, hne, hr, hh]

theorem fld_processed_super (mr : Nat) (pd : String → String → Record)
    (s : CrawlState) (l : Record) (o : Nat → FetchOutcome) (u : String)
    (hu : u ∈ s.processed_urls) :
    u ∈ (fetch_listing_details mr pd s l o).2.processed_urls := by
  rcases fetch_listing_details_cases mr pd s l o with
    ⟨_, hp⟩ | ⟨v, html, _, _, _, _, _, hp⟩
  · rw [hp]; exact hu
  · rw [hp]; exact (mem_setAdd _ _ _).2 (Or.inr hu)

theorem detailStep_processed_super (mr : Nat)
    (pd : String → String → Record) (s : CrawlState) (it : EnrichItem)
    (u : String) (hu : u ∈ s.processed_urls) :
    u ∈ (detailStep mr pd s it).1.processed_urls := by
  cases hl : dictLookup it.listing "url" with
  | none =>
    simp only [detailStep, hl]
    exact fld_processed_super mr pd s it.listing it.outcomes u hu
  | some v =>
    by_cases hc : s.processed_urls.contains v
    · simp only [detailStep, hl, hc, if_true]
      exact hu
    · simp only [detailStep, hl, hc, Bool.false_eq_true, if_false]
      exact fld_processed_super mr pd s it.listing it.outcomes u hu

theorem detailStep_log_not_processed (mr : Nat)
    (pd : String → String → Record) (s : CrawlState) (it : EnrichItem)
    (u : String) (hu : u ∈ (detailStep mr pd s it).2) :
    u ∉ s.processed_urls := by
  cases hl : dictLookup it.listing "url" with
  | none => simp [detailStep, hl] at hu
  | some v =>
    by_cases hc : v ∈ s.processed_urls
    · simp [detailStep, hl, hc] at hu
    · by_cases hv : v = ""
      · rw [hv] at hc
        simp [detailStep, hl, hc, hv] at hu
      · simp [detailStep, hl, hc, hv] at hu
        subst hu
        exact hc

theorem detailStep_processedInv (mr : Nat)
    (pd : String → String → Record)
    (hpd : ∀ html u, dictLookup (pd html u) "url" = none)
    (s : CrawlState) (it : EnrichItem) (hs : processedInv s) :
    processedInv (detailStep mr pd s it).1 := by
  have hall := fetch_listing_details_all_listings mr pd s it.listing it.outcomes
  cases hl : dictLookup it.listing "url" with
  | none =>
    simp only [detailStep, hl]
    intro u hu
    rcases fetch_listing_details_cases mr pd s it.listing it.outcomes with
      ⟨_, hp⟩ | ⟨v, html, hv, _, _, _, _, _⟩
    · rw [hp] at hu
      obtain ⟨r, hr, hru⟩ := hs u hu
      exact ⟨r, by rw [hall]; exact List.mem_append_left _ hr, hru⟩
    · rw [hl] at hv; cases hv
  | some v =>
    by_cases hc : s.processed_urls.contains v
    · simp only [detailStep, hl, hc, if_true]
      exact hs
    · simp only [detailStep, hl, hc, Bool.false_eq_true, if_false]
      intro u hu
      rcases fetch_listing_details_cases mr pd s it.listing it.outcomes with
        ⟨hret, hp⟩ | ⟨w, html, hw, hwne, hh, hr, hret, hp⟩
      · rw [hp] at hu
        obtain ⟨r, hr, hru⟩ := hs u hu
        exact ⟨r, by rw [hall]; exact List.mem_append_left _ hr, hru⟩
      · have hwv : w = v := by
          rw [hl] at hw
          exact (Option.some.injEq _ _ ▸ hw).symm
        subst hwv
        rw [hp] at hu
        rcases (mem_setAdd _ _ _).1 hu with rfl | hold
        · refine ⟨(fetch_listing_details mr pd s it.listing it.outcomes).1,
            by rw [hall]; exact List.mem_append_right _ (List.mem_singleton.2 rfl), ?_⟩
          rw [hret, dictLookup_merge_none _ _ _ (hpd html u), hl]
        · obtain ⟨r, hr, hru⟩ := hs u hold
          exact ⟨r, by rw [hall]; exact List.mem_append_left _ hr, hru⟩

/-- C4: `ProcessedSet ⊆ {r.url | r ∈ accumulation set}` is preserved by
the enrichment loop, hence holds at every checkpoint save: every
checkpoint is taken at a state `(detailLoop mr pd s pre).1` for some
prefix `pre` of the run's items, and this theorem applies to every such
prefix.  Hypotheses: the external detail extractor never produces a
`url` field of its own (in the code it emits `detail_url` instead), and
the invariant holds at the starting state (trivially for a fresh run,
and by this same theorem for a state resumed from a checkpoint a
previous run saved). -/
theorem processed_subset_accumulated (mr : Nat)
    (pd : String → String → Record)
    (hpd : ∀ html u, dictLookup (pd html u) "url" = none)
    (s : CrawlState) (hs : processedInv s) (items : List EnrichItem) :
    processedInv (detailLoop mr pd s items).1 := by
  induction items generalizing s with
  | nil => exact hs
  | cons it rest ih =>
    simp only [detailLoop]
    exact ih (detailStep mr pd s it).1 (detailStep_processedInv mr pd hpd s it hs)

/-- C4 (witness): a fresh state satisfies the invariant and so does the
state after a concrete successful enrichment. -/
theorem processed_subset_accumulated_witness :
    processedInv (detailLoop 1 (fun _ u => [("detail_url", u)])
      (CrawlState.mk [] [] [])
      [EnrichItem.mk [("url", "a")] (fun _ => FetchOutcome.success "h")]).1 :=
  processed_subset_accumulated 1 (fun _ u => [("detail_url", u)])
    (fun _ _ => rfl) (CrawlState.mk [] [] [])
    (fun u hu => absurd hu (List.not_mem_nil u))
    [EnrichItem.mk [("url", "a")] (fun _ => FetchOutcome.success "h")]

/-- C5: a URL present in `processed_urls` at the start of the enrichment
loop — in particular every URL restored from a checkpoint's
ProcessedSet — is never among the URLs for which a detail-page fetch is
issued (URLs are never removed from ProcessedSet, so "while they remain
in ProcessedSet" is the whole run). -/
theorem no_detail_refetch (mr : Nat) (pd : String → String → Record)
    (s : CrawlState) (items : List EnrichItem) (u : String)
    (hu : u ∈ s.processed_urls) :
    u ∉ (detailLoop mr pd s items).2 := by
  induction items generalizing s with
  | nil => simp [detailLoop]
  | cons it rest ih =>
    simp only [detailLoop]
    intro hmem
    rcases List.mem_append.1 hmem with h1 | h2
    · exact detailStep_log_not_processed mr pd s it u h1 hu
    · exact ih (detailStep mr pd s it).1
        (detailStep_processed_super mr pd s it u hu) h2

/-- C5 (witness): resuming with ProcessedSet = {u1, u2}, a run that
rediscovers both URLs issues no detail fetch for either. -/
theorem no_detail_refetch_witness :
    "u1" ∉ (detailLoop 1 (fun _ _ => ([] : Record))
      (CrawlState.mk [[("url", "u1")], [("url", "u2")]] [] ["u1", "u2"])
      [EnrichItem.mk [("url", "u1")] (fun _ => FetchOutcome.success "h"),
       EnrichItem.mk [("url", "u2")] (fun _ => FetchOutcome.success "h")]).2 :=
  no_detail_refetch 1 (fun _ _ => ([] : Record))
    (CrawlState.mk [[("url", "u1")], [("url", "u2")]] [] ["u1", "u2"])
    [EnrichItem.mk [("url", "u1")] (fun _ => FetchOutcome.success "h"),
     EnrichItem.mk [("url", "u2")] (fun _ => FetchOutcome.success "h")]
    "u1" (by decide)

theorem mem_urlsOf (rs : List Record) (u : String) :
    u ∈ urlsOf rs ↔ ∃ r ∈ rs, dictLookup r "url" = some u := by
  simp [urlsOf, List.mem_filterMap]

/-- The invariant that makes url-uniqueness inductive: urls are unique
and every accumulated record's url is already in `processed_urls`. -/
def uniqueInv (s : CrawlState) : Prop :=
  urlsUnique s.all_listings ∧
  ∀ r ∈ s.all_listings, ∃ u, dictLookup r "url" = some u ∧
    u ∈ s.processed_urls

theorem detailStep_uniqueInv (mr : Nat) (pd : String → String → Record)
    (hpd : ∀ html u, dictLookup (pd html u) "url" = none)
    (s : CrawlState) (it : EnrichItem)
    (hit : ∃ u, dictLookup it.listing "url" = some u ∧ u ≠ "" ∧
      ∃ html, (fetch_page u mr it.outcomes).result = some html ∧ html ≠ "")
    (hs : uniqueInv s) : uniqueInv (detailStep mr pd s it).1 := by
  obtain ⟨u, hl, hne, html, hr, hh⟩ := hit
  by_cases hc : s.processed_urls.contains u
  · simp only [detailStep, hl, hc, if_true]
    exact hs
  · have hsucc := fetch_listing_details_success mr pd s it.listing
      it.outcomes u html hl hne hr hh
    simp only [detailStep, hl, hc, Bool.false_eq_true, if_false, hsucc]
    have hmu : dictLookup (dictMerge it.listing (pd html u)) "url" = some u := by
      rw [dictLookup_merge_none _ _ _ (hpd html u), hl]
    constructor
    · have hsplit : urlsOf (s.all_listings ++
          [dictMerge it.listing (pd html u)]) = urlsOf s.all_listings ++ [u] := by
        simp [urlsOf, List.filterMap_append, hmu]
      show urlsUnique _
      rw [urlsUnique, hsplit]
      have hnotin : u ∉ urlsOf s.all_listings := by
        intro hmem
        obtain ⟨r, hrmem, hru⟩ := (mem_urlsOf _ _).1 hmem
        obtain ⟨w, hw, hwmem⟩ := hs.2 r hrmem
        rw [hru] at hw
        have : w = u := (Option.some.injEq _ _ ▸ hw.symm)
        subst this
        exact hc ((contains_iff_mem _ _).2 hwmem)
      rw [List.nodup_append]
      exact ⟨hs.1, List.nodup_singleton u,
        fun a ha hb => hnotin ((List.mem_singleton.1 hb) ▸ ha)⟩
    · intro r hrmem
      rcases List.mem_append.1 hrmem with hrl | hrr
      · obtain ⟨w, hw, hwmem⟩ := hs.2 r hrl
        exact ⟨w, hw, (mem_setAdd _ _ _).2 (Or.inr hwmem)⟩
      · refine ⟨u, ?_, (mem_setAdd _ _ _).2 (Or.inl rfl)⟩
        rw [List.mem_singleton.1 hrr]
        exact hmu

theorem detailLoop_uniqueInv (mr : Nat) (pd : String → String → Record)
    (hpd : ∀ html u, dictLookup (pd html u) "url" = none)
    (s : CrawlState) (hs : uniqueInv s) (items : List EnrichItem)
    (hitems : ∀ it ∈ items, ∃ u, dictLookup it.listing "url" = some u ∧
      u ≠ "" ∧ ∃ html, (fetch_page u mr it.outcomes).result = some html ∧
        html ≠ "") :
    uniqueInv (detailLoop mr pd s items).1 := by
  induction items generalizing s with
  | nil => exact hs
  | cons it rest ih =>
    simp only [detailLoop]
    exact ih (detailStep mr pd s it).1
      (detailStep_uniqueInv mr pd hpd s it
        (hitems it (List.mem_cons_self it rest)) hs)
      (fun x hx => hitems x (List.mem_cons_of_mem it hx))

/-- C1 (counterexample): url uniqueness is violated after resuming from
a checkpoint.  Run 1 discovers url `a`, its detail fetch times out, and
the unenriched record is appended with `a` left out of ProcessedSet;
run 2 resumes from that state, rediscovers `a`, enriches it
successfully, and appends a second record with url `a`. -/
theorem accumulated_url_duplicate :
    ¬ urlsUnique (detailLoop 0 (fun _ _ => ([] : Record))
      (detailLoop 0 (fun _ _ => ([] : Record)) (CrawlState.mk [] [] [])
        [EnrichItem.mk [("url", "a")] (fun _ => FetchOutcome.timeout)]).1
      [EnrichItem.mk [("url", "a")] (fun _ => FetchOutcome.success "h")]).1.all_listings := by
  decide

/-- C1 (amended): url uniqueness holds provided every detail fetch of
the run succeeds and every record already accumulated has its url in
ProcessedSet (true of a fresh run, and of any resumed state whose
records were all enriched).  When a detail fetch fails, the unenriched
record is appended while its url stays out of ProcessedSet, so a later
rediscovery of the same url — in the same run or after resuming —
appends a second record with that url. -/
theorem urls_unique_amended (mr : Nat) (pd : String → String → Record)
    (hpd : ∀ html u, dictLookup (pd html u) "url" = none)
    (s : CrawlState) (hnodup : urlsUnique s.all_listings)
    (hproc : ∀ r ∈ s.all_listings, ∃ u, dictLookup r "url" = some u ∧
      u ∈ s.processed_urls)
    (items : List EnrichItem)
    (hitems : ∀ it ∈ items, ∃ u, dictLookup it.listing "url" = some u ∧
      u ≠ "" ∧ ∃ html, (fetch_page u mr it.outcomes).result = some html ∧
        html ≠ "") :
    urlsUnique (detailLoop mr pd s items).1.all_listings :=
  (detailLoop_uniqueInv mr pd hpd s ⟨hnodup, hproc⟩ items hitems).1

/-- C1 (witness for the amended theorem): a fresh run over two distinct
urls, both fetches succeeding, accumulates unique urls. -/
theorem urls_unique_amended_witness :
    urlsUnique (detailLoop 1 (fun _ u => [("detail_url", u)])
      (CrawlState.mk [] [] [])
      [EnrichItem.mk [("url", "a")] (fun _ => FetchOutcome.success "h"),
       EnrichItem.mk [("url", "b")] (fun _ => FetchOutcome.success "g")]).1.all_listings :=
  urls_unique_amended 1 (fun _ u => [("detail_url", u)]) (fun _ _ => rfl)
    (CrawlState.mk [] [] []) (by simp [urlsUnique, urlsOf])
    (by simp)
    [EnrichItem.mk [("url", "a")] (fun _ => FetchOutcome.success "h"),
     EnrichItem.mk [("url", "b")] (fun _ => FetchOutcome.success "g")]
    (by
      intro it hit
      rcases List.mem_cons.1 hit with rfl | hit2
      · exact ⟨"a", rfl, by decide, "h", rfl, by decide⟩
      · rcases List.mem_cons.1 hit2 with rfl | hit3
        · exact ⟨"b", rfl, by decide, "g", rfl, by decide⟩
        · cases hit3)

/-- C3 (counterexample): the consumption loop `break`s at the first
empty non-first page, so the summaries of page 3 — although its fetch
completed before consumption began — are dropped from the produced
sequence, contrary to the claim that they are not. -/
theorem pages_after_gap_dropped :
    consumePages 1
      [(1, PageResult.parsed [[("url", "a")], [("url", "b")]]),
       (2, PageResult.parsed []),
       (3, PageResult.parsed [[("url", "c")]])] =
      [[("url", "a")], [("url", "b")]] ∧
    ([("url", "c")] : Record) ∉ consumePages 1
      [(1, PageResult.parsed [[("url", "a")], [("url", "b")]]),
       (2, PageResult.parsed []),
       (3, PageResult.parsed [[("url", "c")]])] := by
  exact ⟨rfl, by decide⟩

/-- C3 (amended): when a non-first page yields zero summaries the loop
stops consuming further pages, and the already-fetched results of every
page after the gap are dropped from the produced sequence — the output
is exactly what the pages before the gap contributed. -/
theorem consume_stops_and_drops (startPage p : Nat)
    (pre post : List (Nat × PageResult))
    (hpre : ∀ e ∈ pre, haltsAt startPage e = false)
    (hp : startPage < p) :
    consumePages startPage (pre ++ (p, PageResult.parsed []) :: post) =
      consumePages startPage pre := by
  induction pre with
  | nil =>
    simp [consumePages, hp]
  | cons e rest ih =>
    have he := hpre e (List.mem_cons_self e rest)
    have hrest : ∀ x ∈ rest, haltsAt startPage x = false :=
      fun x hx => hpre x (List.mem_cons_of_mem e hx)
    obtain ⟨q, r⟩ := e
    cases r with
    | exc =>
      simp only [List.cons_append, consumePages]
      exact ih hrest
    | noHtml =>
      simp only [List.cons_append, consumePages]
      exact ih hrest
    | parsed ls =>
      by_cases hls : ls = []
      · subst hls
        have hq : ¬ startPage < q := by simpa [haltsAt] using he
        simp [consumePages, hq, ih hrest]
      · simp [consumePages, hls, ih hrest]

/-- C3 (witness for the amended theorem): with page 1 non-empty, page 2
empty and page 3 fetched, the produced sequence is exactly page 1's
contribution. -/
theorem consume_stops_and_drops_witness :
    consumePages 1
      ([(1, PageResult.parsed [[("url", "a")]])] ++
        (2, PageResult.parsed []) ::
          [(3, PageResult.parsed [[("url", "c")]])]) =
      consumePages 1 [(1, PageResult.parsed [[("url", "a")]])] :=
  consume_stops_and_drops 1 2 [(1, PageResult.parsed [[("url", "a")]])]
    [(3, PageResult.parsed [[("url", "c")]])] (by decide) (by decide)

theorem foldl_max_init_le : ∀ (l : List Nat) (a : Nat), a ≤ l.foldl max a := by
  intro l
  induction l with
  | nil => intro a; exact Nat.le_refl a
  | cons x xs ih =>
    intro a
    exact le_trans (Nat.le_max_left a x) (ih (max a x))

theorem foldl_max_le_of_mem :
    ∀ (l : List Nat) (a v : Nat), v ∈ l → v ≤ l.foldl max a := by
  intro l
  induction l with
  | nil => intro a v hv; cases hv
  | cons x xs ih =>
    intro a v hv
    rcases List.mem_cons.1 hv with rfl | hxs
    · exact le_trans (Nat.le_max_right a v) (foldl_max_init_le xs (max a v))
    · exact ih (max a x) v hxs

theorem foldl_max_mem_or_init :
    ∀ (l : List Nat) (a : Nat), l.foldl max a = a ∨ l.foldl max a ∈ l := by
  intro l
  induction l with
  | nil => intro a; left; rfl
  | cons x xs ih =>
    intro a
    rcases ih (max a x) with h | h
    · rcases max_choice a x with hm | hm
      · left; rw [List.foldl_cons, h, hm]
      · right; rw [List.foldl_cons, h, hm]; exact List.mem_cons_self x xs
    · right
      rw [List.foldl_cons]
      exact List.mem_cons_of_mem x h

/-- The `max_page` fold of `detect_last_page` computes the maximum of
all numeric page values found in the pagination markup (and 1). -/
theorem paginationMax_eq (links : List PageLink) :
    paginationMax links = (pageVals links).foldl max 1 := by
  rw [paginationMax, pageVals]
  generalize 1 = a
  induction links generalizing a with
  | nil => rfl
  | cons l rest ih =>
    rw [List.foldl_cons, List.flatMap_cons, List.foldl_append, ih]
    congr 1
    rw [linkVals]
    cases hs : searchPage l.href.data <;> by_cases hd : digitsOnly l.text <;>
      simp [hs, hd]

/-- C6 (counterexample): with pagination markup present whose only
numeric page value is 1 (a single link with text "1"), `detect_last_page`
does not return the maximum value found (1): the `max_page > 1` guard
fails and it falls through to the fallback 100. -/
theorem detect_last_page_max_one_falls_back :
    pageVals [PageLink.mk "1" "x"] = [1] ∧
    detect_last_page (some (some [PageLink.mk "1" "x"])) = 100 := by
  exact ⟨rfl, rfl⟩

/-- C6 (amended): `detect_last_page` fetches page 1 and never fails
fatally; if the fetch fails or no pagination markup is found it returns
the fallback 100; if pagination markup is present it returns the maximum
numeric value found among digit-only link texts and `/page/N/` href
references only when that maximum exceeds 1, and otherwise falls back to
100 as well. -/
theorem detect_last_page_spec (links : List PageLink) :
    detect_last_page none = 100 ∧
    detect_last_page (some none) = 100 ∧
    (1 < paginationMax links →
      detect_last_page (some (some links)) = paginationMax links ∧
      paginationMax links ∈ pageVals links ∧
      ∀ v ∈ pageVals links, v ≤ paginationMax links) ∧
    (paginationMax links ≤ 1 →
      detect_last_page (some (some links)) = 100) := by
  refine ⟨rfl, rfl, ?_, ?_⟩
  · intro h1
    refine ⟨by rw [detect_last_page, if_pos h1], ?_, ?_⟩
    · rcases foldl_max_mem_or_init (pageVals links) 1 with hinit | hmem
      · rw [paginationMax_eq, hinit] at h1
        exact absurd h1 (lt_irrefl 1)
      · rw [paginationMax_eq]
        exact hmem
    · intro v hv
      rw [paginationMax_eq]
      exact foldl_max_le_of_mem (pageVals links) 1 v hv
  · intro h1
    rw [detect_last_page, if_neg (by omega)]

/-- C6 (witness for the amended theorem): a pagination block with a
"Next" link pointing at `/page/17/` yields 17. -/
theorem detect_last_page_spec_witness :
    detect_last_page (some (some [PageLink.mk "Next" "/page/17/"])) =
      paginationMax [PageLink.mk "Next" "/page/17/"] ∧
    paginationMax [PageLink.mk "Next" "/page/17/"] ∈
      pageVals [PageLink.mk "Next" "/page/17/"] ∧
    ∀ v ∈ pageVals [PageLink.mk "Next" "/page/17/"],
      v ≤ paginationMax [PageLink.mk "Next" "/page/17/"] :=
  (detect_last_page_spec [PageLink.mk "Next" "/page/17/"]).2.2.1 (by decide)

/-- C9: the computed column order depends only on the field-name set,
not on the order the Python set happens to be enumerated in: any two
duplicate-free enumerations with the same members yield the identical
header row — priority fields that occur first, in their fixed order,
then the remaining fields lexicographically.  In particular computing
the order twice on the same record set yields identical header rows. -/
theorem orderColumns_deterministic (fns1 fns2 : List String)
    (hmem : ∀ f, f ∈ fns1 ↔ f ∈ fns2)
    (h1 : fns1.Nodup) (h2 : fns2.Nodup) :
    orderColumns fns1 = orderColumns fns2 := by
  have hperm : fns1.Perm fns2 := (List.perm_ext_iff_of_nodup h1 h2).2 hmem
  rw [orderColumns, orderColumns]
  congr 1
  · apply List.filter_congr
    intro f _
    by_cases hf : f ∈ fns1
    · rw [(contains_iff_mem _ _).2 hf, (contains_iff_mem _ _).2 ((hmem f).1 hf)]
    · have hf2 : f ∉ fns2 := fun h => hf ((hmem f).2 h)
      have e1 : fns1.contains f = false :=
        Bool.eq_false_iff.2 (fun h => hf ((contains_iff_mem _ _).1 h))
      have e2 : fns2.contains f = false :=
        Bool.eq_false_iff.2 (fun h => hf2 ((contains_iff_mem _ _).1 h))
      rw [e1, e2]
  · have hpf : (fns1.filter (fun f => !priority_fields.contains f)).Perm
        (fns2.filter (fun f => !priority_fields.contains f)) :=
      hperm.filter _
    exact List.eq_of_perm_of_sorted
      ((List.perm_insertionSort _ _).trans
        (hpf.trans (List.perm_insertionSort _ _).symm))
      (List.sorted_insertionSort _ _) (List.sorted_insertionSort _ _)

/-- C9 (witness): two enumeration orders of the same field-name set give
the identical header row. -/
theorem orderColumns_deterministic_witness :
    orderColumns ["zeta", "url", "alpha", "title"] =
      orderColumns ["title", "alpha", "zeta", "url"] :=
  orderColumns_deterministic ["zeta", "url", "alpha", "title"]
    ["title", "alpha", "zeta", "url"]
    (by intro f; simp; tauto) (by decide) (by decide)

end Aratap
